import Mathlib

/-!
# Verification of the Hisebi derivation layer

A shallow embedding of the aggregation and derived-view computations of the
Hisebi personal finance application (src/App.tsx, src/index.tsx,
src/services/geminiService.ts), together with proofs of the behavioral
contracts stated in the specification.

Modelling conventions:
* JavaScript numbers (amounts, prices, quantities) are modelled as rationals.
* Date strings are kept as strings; where the code compares dates via
  `new Date(s).getTime()`, the embedding is parameterized by an arbitrary
  parse function `pt : String -> Nat` giving the epoch value of a date string.
* `Array.prototype.sort`, which ECMAScript requires to be stable, is embedded
  as `List.mergeSort` (stable) with the boolean translation of the comparator:
  an element `a` may precede `b` exactly when the comparator returns a value
  less than or equal to zero on `(a, b)`.
* Optional fields (`number | null`) become `Option` values; JavaScript
  falsiness defaults `x || d` are embedded by `jsOr`, which returns the
  default both for `null` (`none`) and for the falsy number `0`.
* Division is embedded as `jsDiv`, returning `none` where JavaScript would
  produce a non-finite value (`NaN` or an infinity).
-/

namespace Hisebi

/-- Transaction kind, from the `TransactionType` union in src/index.tsx. -/
inductive TxType where
  | income
  | expense
deriving DecidableEq, Repr

/-- The `Transaction` record of src/index.tsx (identical in src/types.ts). -/
structure Transaction where
  id : String
  type : TxType
  amount : ℚ
  category : String
  date : String
  note : String
deriving DecidableEq, Repr

/-- Debt status, from the `'pending' | 'repaid'` union. -/
inductive DebtStatus where
  | pending
  | repaid
deriving DecidableEq, Repr

/-- The `Debt` record of src/index.tsx (identical in src/types.ts). -/
structure Debt where
  id : String
  person : String
  amount : ℚ
  date : String
  note : String
  status : DebtStatus
deriving DecidableEq, Repr

/-- The `ShoppingItem` record of src/index.tsx. -/
structure ShoppingItem where
  id : String
  name : String
  qty : Option ℚ
  price : Option ℚ
  uom : Option String
  completed : Bool
  createdAt : Nat
deriving DecidableEq, Repr

/-- The `UserProfile` record. -/
structure UserProfile where
  name : String
  monthlyBudget : ℚ
deriving DecidableEq, Repr

/-! ## Aggregator: `totals` (src/App.tsx lines 62-67, src/index.tsx lines 128-133) -/

/-- Result record of the `totals` memo. -/
structure Totals where
  income : ℚ
  expense : ℚ
  balance : ℚ
  pendingDebt : ℚ
deriving DecidableEq, Repr

/-- The `totals` computation of src/App.tsx lines 62-67 (and, with the field
names `inc`/`exp`/`dbt`, src/index.tsx lines 128-133): filter-and-reduce sums
for income, expense and pending debt, with `balance` computed as the income
sum minus the expense sum. -/
def totals (transactions : List Transaction) (debts : List Debt) : Totals :=
  let income := (transactions.filter (fun t => t.type == TxType.income)).foldl
    (fun s t => s + t.amount) 0
  let expense := (transactions.filter (fun t => t.type == TxType.expense)).foldl
    (fun s t => s + t.amount) 0
  let pendingDebt := (debts.filter (fun d => d.status == DebtStatus.pending)).foldl
    (fun s d => s + d.amount) 0
  { income := income, expense := expense, balance := income - expense,
    pendingDebt := pendingDebt }

/-- A left fold adding `f x` for each element equals the initial value plus the
sum of the mapped list. -/
theorem foldl_add_eq_sum {α : Type} (f : α → ℚ) :
    ∀ (l : List α) (init : ℚ), l.foldl (fun s x => s + f x) init = init + (l.map f).sum
  | [], init => by simp
  | x :: l, init => by
    rw [List.foldl_cons, foldl_add_eq_sum f l (init + f x)]
    simp [add_assoc]

/-- C2: for every transaction list (and debt list), the aggregator satisfies
`balance = totalIncome - totalExpense` exactly, where `totalIncome` is the sum
of `amount` over transactions of kind `income` and `totalExpense` is the sum
of `amount` over transactions of kind `expense`. -/
theorem totals_balance_spec (transactions : List Transaction) (debts : List Debt) :
    (totals transactions debts).balance
      = (totals transactions debts).income - (totals transactions debts).expense
    ∧ (totals transactions debts).income
      = ((transactions.filter (fun t => t.type == TxType.income)).map (fun t => t.amount)).sum
    ∧ (totals transactions debts).expense
      = ((transactions.filter (fun t => t.type == TxType.expense)).map (fun t => t.amount)).sum := by
  refine ⟨rfl, ?_, ?_⟩ <;> simp [totals, foldl_add_eq_sum]

/-! ## Shopping aggregates: `shoppingTotals` (src/index.tsx lines 135-141) -/

/-- JavaScript falsiness default `x || d` on an optional number: the default
is used both when the value is absent (`null`) and when it is the falsy
number `0`. -/
def jsOr (x : Option ℚ) (d : ℚ) : ℚ :=
  match x with
  | none => d
  | some v => if v = 0 then d else v

/-- The per-item estimate `(item.price || 0) * (item.qty || 1)` used both in
`shoppingTotals` (src/index.tsx lines 136-137) and in the Est. Subtotal
render (src/index.tsx line 502). -/
def itemSubtotal (item : ShoppingItem) : ℚ :=
  jsOr item.price 0 * jsOr item.qty 1

/-- Result record of the `shoppingTotals` memo. -/
structure ShoppingTotals where
  total : ℚ
  completedPrice : ℚ
  itemCount : Nat
  completedCount : Nat
deriving DecidableEq, Repr

/-- The `shoppingTotals` computation of src/index.tsx lines 135-141. -/
def shoppingTotals (shoppingItems : List ShoppingItem) : ShoppingTotals :=
  { total := shoppingItems.foldl (fun s item => s + itemSubtotal item) 0,
    completedPrice := (shoppingItems.filter (fun i => i.completed)).foldl
      (fun s item => s + itemSubtotal item) 0,
    itemCount := shoppingItems.length,
    completedCount := (shoppingItems.filter (fun i => i.completed)).length }

/-- The shopping total exactly as the specification words it (claim C7):
the sum over items of unit-price-estimate times quantity, treating a missing
price as `0` and a missing quantity as `1`. -/
def specShoppingTotal (shoppingItems : List ShoppingItem) : ℚ :=
  (shoppingItems.map (fun i => i.price.getD 0 * i.qty.getD 1)).sum

/-- The completed-restricted shopping total as the specification words it. -/
def specShoppingCompletedTotal (shoppingItems : List ShoppingItem) : ℚ :=
  ((shoppingItems.filter (fun i => i.completed)).map
    (fun i => i.price.getD 0 * i.qty.getD 1)).sum

/-- A concrete item whose quantity is the falsy number `0` (not missing). -/
def zeroQtyItem : ShoppingItem :=
  { id := "i1", name := "Rice", qty := some 0, price := some 10, uom := none,
    completed := true, createdAt := 0 }

/-- C7 counterexample: on the singleton list holding an item with price 10 and
quantity 0, the code computes total 10 (the falsy quantity 0 is replaced by
the default 1 by `qty || 1`), while the sum described by the claim (missing
price as 0, missing quantity as 1, everything else taken as given) is 0; so
the claimed equation fails on this list, for both the total and the
completed-restricted total. -/
theorem shoppingTotal_claim_counterexample :
    (shoppingTotals [zeroQtyItem]).total = 10
    ∧ specShoppingTotal [zeroQtyItem] = 0
    ∧ (shoppingTotals [zeroQtyItem]).total ≠ specShoppingTotal [zeroQtyItem]
    ∧ (shoppingTotals [zeroQtyItem]).completedPrice
      ≠ specShoppingCompletedTotal [zeroQtyItem] := by
  refine ⟨?_, ?_, ?_, ?_⟩ <;>
    norm_num [shoppingTotals, itemSubtotal, jsOr, zeroQtyItem, specShoppingTotal,
      specShoppingCompletedTotal]

/-- The three-item list of the specification example:
price 10 with quantity 2, missing price with quantity 3, price 5 with
missing quantity. -/
def exampleShoppingList : List ShoppingItem :=
  [{ id := "a", name := "A", qty := some 2, price := some 10, uom := none,
     completed := false, createdAt := 0 },
   { id := "b", name := "B", qty := some 3, price := none, uom := none,
     completed := false, createdAt := 1 },
   { id := "c", name := "C", qty := none, price := some 5, uom := none,
     completed := false, createdAt := 2 }]

/-- C7 as amended: for every shopping item list, the code computes
`shoppingTotal` as the sum over all items of `(price || 0) * (qty || 1)`
under JavaScript falsiness (so a missing price contributes factor 0, a
missing quantity contributes factor 1, and additionally the falsy quantity
`0` is also replaced by 1), and `shoppingCompletedTotal` is the same sum
restricted to items with `completed = true`; an absent price makes an item
contribute 0 and an absent quantity makes it contribute its price default;
the specification example list still totals 25. -/
theorem shoppingTotals_spec (shoppingItems : List ShoppingItem) :
    (shoppingTotals shoppingItems).total = (shoppingItems.map itemSubtotal).sum
    ∧ (shoppingTotals shoppingItems).completedPrice
      = ((shoppingItems.filter (fun i => i.completed)).map itemSubtotal).sum
    ∧ (∀ id name qty uom completed createdAt,
        itemSubtotal { id := id, name := name, qty := qty, price := none,
                       uom := uom, completed := completed, createdAt := createdAt } = 0)
    ∧ (∀ id name price uom completed createdAt,
        itemSubtotal { id := id, name := name, qty := none, price := price,
                       uom := uom, completed := completed, createdAt := createdAt }
          = jsOr price 0)
    ∧ (shoppingTotals exampleShoppingList).total = 25 := by
  refine ⟨?_, ?_, ?_, ?_, ?_⟩
  · simp [shoppingTotals, foldl_add_eq_sum]
  · simp [shoppingTotals, foldl_add_eq_sum]
  · intros; simp [itemSubtotal, jsOr]
  · intros; simp [itemSubtotal, jsOr]
  · norm_num [shoppingTotals, itemSubtotal, jsOr, exampleShoppingList]

/-- C10: the falsiness defaults in `shoppingTotals` and the Est. Subtotal
render mean that an item whose quantity is the number 0 contributes exactly
as if its quantity were 1 (namely `price || 0`), an item whose price is the
number 0 contributes 0, and replacing any quantity-0 item by the same item
with quantity 1 leaves both `shoppingTotal` and `shoppingCompletedTotal`
unchanged. -/
theorem shoppingTotals_qty_zero (l₁ l₂ : List ShoppingItem) (item : ShoppingItem)
    (h : item.qty = some 0) :
    itemSubtotal item = jsOr item.price 0
    ∧ itemSubtotal { item with qty := some 1 } = itemSubtotal item
    ∧ (∀ j : ShoppingItem, j.price = some 0 → itemSubtotal j = 0)
    ∧ (shoppingTotals (l₁ ++ { item with qty := some 1 } :: l₂)).total
      = (shoppingTotals (l₁ ++ item :: l₂)).total
    ∧ (shoppingTotals (l₁ ++ { item with qty := some 1 } :: l₂)).completedPrice
      = (shoppingTotals (l₁ ++ item :: l₂)).completedPrice := by
  have hsub : itemSubtotal { item with qty := some 1 } = itemSubtotal item := by
    simp [itemSubtotal, h, jsOr]
  refine ⟨by simp [itemSubtotal, h, jsOr], hsub, ?_, ?_, ?_⟩
  · intro j hj; simp [itemSubtotal, hj, jsOr]
  · simp [shoppingTotals, foldl_add_eq_sum, hsub]
  · simp only [shoppingTotals, foldl_add_eq_sum, List.filter_append, List.filter_cons]
    by_cases hc : ({ item with qty := some 1 } : ShoppingItem).completed
    · simp only [hc] at *
      simp_all [hsub]
    · simp only [hc] at *
      simp_all

/-- Witness for `shoppingTotals_qty_zero` at a concrete input: the singleton
decomposition around `zeroQtyItem`. -/
theorem shoppingTotals_qty_zero_witness :
    itemSubtotal zeroQtyItem = jsOr zeroQtyItem.price 0
    ∧ (shoppingTotals ([] ++ { zeroQtyItem with qty := some 1 } :: [])).total
      = (shoppingTotals ([] ++ zeroQtyItem :: [])).total := by
  have h := shoppingTotals_qty_zero [] [] zeroQtyItem rfl
  exact ⟨h.1, h.2.2.2.1⟩

/-! ## Completion percentage (src/index.tsx lines 518-541) -/

/-- JavaScript division on the rationals: `none` stands for the non-finite
results (`NaN` for `0/0`, an infinity otherwise) produced when the divisor
is `0`. -/
def jsDiv (a b : ℚ) : Option ℚ :=
  if b = 0 then none else some (a / b)

/-- `Math.round`: round half toward positive infinity. -/
def jsRound (q : ℚ) : Int :=
  ⌊q + 1 / 2⌋

/-- The raw rounded completion percentage exactly as written on
src/index.tsx line 535: `Math.round((completedCount / itemCount) * 100)`,
with no guard on the divisor. -/
def completionPct (shoppingItems : List ShoppingItem) : Option Int :=
  (jsDiv ((shoppingTotals shoppingItems).completedCount : ℚ)
    ((shoppingTotals shoppingItems).itemCount : ℚ)).map (fun q => jsRound (q * 100))

/-- The progress-bar width percentage of src/index.tsx line 540:
`(completedCount / (itemCount || 1)) * 100`, whose divisor is guarded by the
falsiness default `itemCount || 1`. -/
def guardedWidthPct (shoppingItems : List ShoppingItem) : Option ℚ :=
  (jsDiv ((shoppingTotals shoppingItems).completedCount : ℚ)
    ((if (shoppingTotals shoppingItems).itemCount = 0 then 1
      else (shoppingTotals shoppingItems).itemCount : Nat) : ℚ)).map (fun q => q * 100)

/-- The two percentages shown in the sticky summary bar. -/
structure SummaryBar where
  fulfillmentText : Option Int
  fulfillmentWidth : Option ℚ
deriving DecidableEq, Repr

/-- The sticky summary bar of src/index.tsx lines 518-545: the whole block is
rendered only when `shoppingItems.length > 0`; inside it, the text percentage
is the unguarded rounded ratio of line 535 and the bar width is the guarded
ratio of line 540. -/
def stickySummaryBar (shoppingItems : List ShoppingItem) : Option SummaryBar :=
  if shoppingItems.length = 0 then none
  else some { fulfillmentText := completionPct shoppingItems,
              fulfillmentWidth := guardedWidthPct shoppingItems }

/-- C8 counterexample: on the empty shopping list the completion-percentage
expression `completedCount / itemCount` as written in the code is an
unguarded `0 / 0` — under JavaScript semantics `NaN`, not the value `0`
promised by the claim — and the sticky summary bar containing it is not
rendered at all. -/
theorem completionPct_empty_counterexample :
    completionPct ([] : List ShoppingItem) = none
    ∧ completionPct ([] : List ShoppingItem) ≠ some 0
    ∧ stickySummaryBar ([] : List ShoppingItem) = none := by
  refine ⟨rfl, by simp [completionPct, shoppingTotals, jsDiv], rfl⟩

/-- C8 as amended: the division is protected by rendering, not by a value
guard — the summary bar (holding both percentage expressions) is rendered
exactly when the list is nonempty, so the unguarded division of line 535
never executes with `itemCount = 0`; on every nonempty list both percentages
are well-defined finite values (no `NaN`, no error); and the guarded width
formula of line 540, evaluated on the empty list, yields `0`. -/
theorem stickySummaryBar_spec (shoppingItems : List ShoppingItem) :
    (shoppingItems = [] → stickySummaryBar shoppingItems = none)
    ∧ (shoppingItems ≠ [] →
        stickySummaryBar shoppingItems
          = some { fulfillmentText := some (jsRound
                     (((shoppingTotals shoppingItems).completedCount : ℚ)
                       / ((shoppingTotals shoppingItems).itemCount : ℚ) * 100)),
                   fulfillmentWidth := some
                     (((shoppingTotals shoppingItems).completedCount : ℚ)
                       / ((shoppingTotals shoppingItems).itemCount : ℚ) * 100) })
    ∧ guardedWidthPct ([] : List ShoppingItem) = some 0 := by
  refine ⟨fun h => by simp [stickySummaryBar, h], fun h => ?_,
    by simp [guardedWidthPct, shoppingTotals, jsDiv]⟩
  have hlen : shoppingItems.length ≠ 0 := by
    simpa [List.length_eq_zero] using h
  have hcast : ((shoppingItems.length : ℚ)) ≠ 0 := by
    exact_mod_cast hlen
  simp [stickySummaryBar, completionPct, guardedWidthPct, shoppingTotals, jsDiv,
    hlen, hcast]

/-- Witness for `stickySummaryBar_spec`: on the singleton list holding
`zeroQtyItem` (1 item, 1 completed) the bar is rendered and shows 100 percent. -/
theorem stickySummaryBar_spec_witness :
    stickySummaryBar [zeroQtyItem]
      = some { fulfillmentText := some (jsRound
                 (((shoppingTotals [zeroQtyItem]).completedCount : ℚ)
                   / ((shoppingTotals [zeroQtyItem]).itemCount : ℚ) * 100)),
               fulfillmentWidth := some
                 (((shoppingTotals [zeroQtyItem]).completedCount : ℚ)
                   / ((shoppingTotals [zeroQtyItem]).itemCount : ℚ) * 100) }
    ∧ stickySummaryBar ([] : List ShoppingItem) = none := by
  exact ⟨(stickySummaryBar_spec [zeroQtyItem]).2.1 (by simp),
    (stickySummaryBar_spec []).1 rfl⟩

/-! ## Shopping sorter: `sortedShoppingItems` (src/index.tsx lines 143-148) -/

/-- Boolean translation of the comparator of src/index.tsx lines 144-147:
`a` may precede `b` exactly when the comparator value is nonpositive, i.e.
when the two items share a completion state and `b.createdAt - a.createdAt`
is nonpositive, or the states differ and `a` is the incomplete one. -/
def shopLe (a b : ShoppingItem) : Bool :=
  if a.completed = b.completed then decide (b.createdAt ≤ a.createdAt)
  else !a.completed

/-- The comparator is transitive. -/
theorem shopLe_trans (a b c : ShoppingItem) (hab : shopLe a b) (hbc : shopLe b c) :
    shopLe a c := by
  cases ha : a.completed <;> cases hb : b.completed <;> cases hc : c.completed <;>
    simp_all [shopLe] <;> omega

/-- The comparator is total. -/
theorem shopLe_total (a b : ShoppingItem) : shopLe a b || shopLe b a := by
  cases ha : a.completed <;> cases hb : b.completed <;> simp_all [shopLe] <;> omega

/-- The `sortedShoppingItems` memo of src/index.tsx lines 143-148: a stable
sort of a copy of the stored list under the completion-then-recency
comparator; the stored list itself is left untouched. -/
def sortedShoppingItems (shoppingItems : List ShoppingItem) : List ShoppingItem :=
  shoppingItems.mergeSort shopLe

/-- C9: the sorted view is a permutation of the stored list (the stored list
itself being unchanged — the embedding is a pure function of a copy), every
`completed = false` item precedes every `completed = true` item, and inside a
completion group items are ordered by creation timestamp descending. -/
theorem sortedShoppingItems_spec (shoppingItems : List ShoppingItem) :
    (sortedShoppingItems shoppingItems).Perm shoppingItems
    ∧ (sortedShoppingItems shoppingItems).Pairwise
        (fun a b => (a.completed = false ∧ b.completed = true)
          ∨ (a.completed = b.completed ∧ b.createdAt ≤ a.createdAt)) := by
  constructor
  · exact List.mergeSort_perm shoppingItems shopLe
  · have hs := @List.sorted_mergeSort _ shopLe shopLe_trans shopLe_total shoppingItems
    refine hs.imp ?_
    intro a b hab
    by_cases hc : a.completed = b.completed
    · right
      refine ⟨hc, ?_⟩
      simpa [shopLe, hc] using hab
    · left
      have hna : a.completed = false := by
        simp only [shopLe, hc, if_false, Bool.not_eq_true'] at hab
        exact hab
      refine ⟨hna, ?_⟩
      cases hcb : b.completed
      · exact absurd (hna.trans hcb.symm) hc
      · rfl

/-! ## Trend windower: `barData` (src/index.tsx lines 173-180,
`monthlyBarData` in src/App.tsx lines 96-105) -/

/-- One point of the bar-chart series. -/
structure BarEntry where
  date : String
  amount : ℚ
  type : TxType
deriving DecidableEq, Repr

/-- `Array.prototype.slice(-n)`: the trailing `n` elements of the stored
sequence (the whole sequence when it is shorter than `n`). -/
def jsSliceLast (n : Nat) {α : Type} (l : List α) : List α :=
  l.drop (l.length - n)

/-- The `barData` memo of src/index.tsx lines 173-180 (equivalently
`monthlyBarData` of src/App.tsx lines 96-105): take `transactions.slice(-7)`
in stored order, map each entry to its formatted short date, amount and kind,
and fall back to a single `Today`/0/expense placeholder when the result is
empty. The platform date formatter
`new Date(d).toLocaleDateString("en-US", ...)` is abstracted as the function
parameter `fmt`. -/
def barData (fmt : String → String) (transactions : List Transaction) : List BarEntry :=
  let last7 := (jsSliceLast 7 transactions).map
    (fun t => { date := fmt t.date, amount := t.amount, type := t.type : BarEntry })
  if last7.isEmpty then [{ date := "Today", amount := 0, type := TxType.expense }]
  else last7

/-- C3: the trend series is the trailing 7-entry slice of the stored sequence
exactly as stored (equal to the reversal of the first 7 entries of the
reversed list — no date sorting, no recency correction), mapped to
(formatted short date, amount, kind); the empty transaction list instead
yields exactly one placeholder entry dated `Today` with amount 0 and kind
expense. The series length is 1 on the empty list and
`min 7 (length transactions)` otherwise. -/
theorem barData_spec (fmt : String → String) (transactions : List Transaction) :
    barData fmt transactions
      = (if transactions.isEmpty
         then [{ date := "Today", amount := 0, type := TxType.expense }]
         else ((transactions.reverse.take 7).reverse).map
           (fun t => { date := fmt t.date, amount := t.amount, type := t.type : BarEntry }))
    ∧ (barData fmt transactions).length
      = if transactions.isEmpty then 1 else min 7 transactions.length := by
  have hslice : (transactions.reverse.take 7).reverse = jsSliceLast 7 transactions := by
    rw [List.take_reverse, List.reverse_reverse]
    rfl
  cases transactions with
  | nil => exact ⟨rfl, rfl⟩
  | cons t ts =>
    have hne : jsSliceLast 7 (t :: ts) ≠ [] := by
      simp only [ne_eq, ← List.length_eq_zero, jsSliceLast, List.length_drop,
        List.length_cons]
      omega
    have hbd : barData fmt (t :: ts) = (jsSliceLast 7 (t :: ts)).map
        (fun t => { date := fmt t.date, amount := t.amount, type := t.type : BarEntry }) := by
      simp [barData, List.isEmpty_iff, List.map_eq_nil_iff, hne]
    refine ⟨?_, ?_⟩
    · rw [hbd, hslice]
      simp
    · rw [hbd, List.length_map]
      simp only [List.isEmpty_cons, if_false, jsSliceLast, List.length_drop,
        List.length_cons, Bool.false_eq_true]
      omega

/-! ## Insight service: `getFinancialInsights` (src/services/geminiService.ts) -/

/-- The structured insight returned by the service (src/types.ts
`AIInsight`): an ordered list of tip strings and an optional alert. -/
structure AIInsight where
  tips : List String
  alert : Option String
deriving DecidableEq, Repr

/-- The snapshot handed to the service (src/types.ts `FinancialData`). -/
structure FinancialData where
  transactions : List Transaction
  debts : List Debt
  profile : UserProfile
deriving Repr

/-- The fixed fallback value returned from the `catch` block of
src/services/geminiService.ts lines 62-72: three generic tips plus the fixed
advisory alert string. -/
def fallbackInsight : AIInsight :=
  { tips := [
      "Review your frequent small expenses (like tea or snacks) to find hidden savings.",
      "Focus on clearing your highest-interest Dhar first to reduce financial burden.",
      "Consider setting a slightly tighter budget goal for next month to build an emergency fund."],
    alert := some "AI Insights currently limited. Showing standard recommendations." }

/-- The transactions interpolated into the request prompt on
src/services/geminiService.ts line 26: `data.transactions.slice(-10)`, the
trailing 10 entries of the stored list. -/
def getFinancialInsightsRequest (data : FinancialData) : List Transaction :=
  jsSliceLast 10 data.transactions

/-- Outcome of the awaited model call of src/services/geminiService.ts lines
34-55: either the call throws (network or service error), or it resolves
with an optional text body (`response.text`). -/
inductive CallOutcome where
  | fail
  | ok (text : Option String)

/-- `String.prototype.trim`: strip leading and trailing whitespace. -/
def jsTrim (s : String) : String :=
  String.mk (((s.data.dropWhile Char.isWhitespace).reverse.dropWhile
    Char.isWhitespace).reverse)

/-- The response handling of src/services/geminiService.ts lines 57-72, with
`JSON.parse` into the expected shape abstracted as the fallible function
parameter `parse`: a thrown call, an empty (or absent) trimmed body, and an
unparsable body are all caught and replaced by `fallbackInsight`; a parsed
body is returned as is. The embedding is a total function into `AIInsight`,
reflecting that the source function always resolves with a value and never
rethrows. -/
def getFinancialInsights (parse : String → Option AIInsight)
    (outcome : CallOutcome) : AIInsight :=
  match outcome with
  | CallOutcome.fail => fallbackInsight
  | CallOutcome.ok text =>
    let jsonStr := jsTrim (text.getD "")
    if jsonStr = "" then fallbackInsight
    else
      match parse jsonStr with
      | none => fallbackInsight
      | some r => r

/-- C6: on every failure of the insight-service call — a thrown network or
service error, an empty (or absent) response body, or a body the JSON parser
rejects — `getFinancialInsights` returns exactly the fixed fallback value,
whose tip list has exactly 3 entries and whose alert is the fixed advisory
string; the function is total, so no exception propagates and no absent
insight is ever produced. -/
theorem getFinancialInsights_fallback (parse : String → Option AIInsight) :
    getFinancialInsights parse CallOutcome.fail = fallbackInsight
    ∧ (∀ text : Option String, jsTrim (text.getD "") = "" →
        getFinancialInsights parse (CallOutcome.ok text) = fallbackInsight)
    ∧ (∀ text : Option String, parse (jsTrim (text.getD "")) = none →
        getFinancialInsights parse (CallOutcome.ok text) = fallbackInsight)
    ∧ fallbackInsight.tips.length = 3
    ∧ fallbackInsight.alert
      = some "AI Insights currently limited. Showing standard recommendations." := by
  refine ⟨rfl, ?_, ?_, rfl, rfl⟩
  · intro text h
    simp [getFinancialInsights, h]
  · intro text h
    by_cases he : jsTrim (text.getD "") = ""
    · simp [getFinancialInsights, he]
    · simp [getFinancialInsights, he, h]

/-- Witness for `getFinancialInsights_fallback` at concrete inputs: a parser
rejecting everything, an absent body, and a nonempty unparsable body. -/
theorem getFinancialInsights_fallback_witness :
    getFinancialInsights (fun _ => none) CallOutcome.fail = fallbackInsight
    ∧ getFinancialInsights (fun _ => none) (CallOutcome.ok none) = fallbackInsight
    ∧ getFinancialInsights (fun _ => none) (CallOutcome.ok (some "garbage"))
      = fallbackInsight := by
  refine ⟨(getFinancialInsights_fallback (fun _ => none)).1, ?_, ?_⟩
  · exact (getFinancialInsights_fallback (fun _ => none)).2.1 none (by decide)
  · exact (getFinancialInsights_fallback (fun _ => none)).2.2.1 (some "garbage") rfl

/-- A transaction constructor used to exhibit concrete stored lists; the
amount field distinguishes the entries. -/
def sampleTx (i : Nat) : Transaction :=
  { id := toString i, type := TxType.expense, amount := i, category := "Food",
    date := toString i, note := "" }

/-- An 11-entry stored transaction list as produced by prepend-on-create
insertion: `sampleTx 0` is the most recently created entry. -/
def storedEleven : List Transaction :=
  (List.range 11).map sampleTx

/-- C5 failing input, evaluated: on a stored list of 11 transactions (newest
first, as prepend-on-create insertion produces), the request built by
`getFinancialInsights` contains `transactions.slice(-10)` — the trailing 10
stored entries, i.e. the 10 oldest, dropping the newest entry — and not the
first 10 stored entries (the most-recent 10) that the claim and the
specification describe. -/
theorem getFinancialInsightsRequest_failing :
    getFinancialInsightsRequest
        { transactions := storedEleven, debts := [],
          profile := { name := "Guest User", monthlyBudget := 15000 } }
      = storedEleven.drop 1
    ∧ getFinancialInsightsRequest
        { transactions := storedEleven, debts := [],
          profile := { name := "Guest User", monthlyBudget := 15000 } }
      ≠ storedEleven.take 10 := by
  constructor
  · rfl
  · intro h
    have hL : storedEleven.drop 1 = storedEleven.take 10 := by
      have hreq : getFinancialInsightsRequest
          { transactions := storedEleven, debts := [],
            profile := { name := "Guest User", monthlyBudget := 15000 } }
          = storedEleven.drop 1 := rfl
      rw [hreq] at h
      exact h
    have h1 : (storedEleven.drop 1).get? 0 = some (sampleTx 1) := rfl
    have h2 : (storedEleven.take 10).get? 0 = some (sampleTx 0) := rfl
    rw [hL, h2] at h1
    have h4 := congrArg Transaction.amount (Option.some.inj h1)
    norm_num [sampleTx] at h4

/-! ## Activity merger: `recentActivity` (src/index.tsx lines 150-164,
`recentCombinedActivity` in src/App.tsx lines 69-83) -/

/-- The `type` tag of a feed entry: the transaction kinds plus the distinct
`'debt'` tag given to projected debts. -/
inductive EntryType where
  | income
  | expense
  | debt
deriving DecidableEq, Repr

/-- The `source` tag added to every feed entry. -/
inductive EntrySource where
  | transaction
  | debt
deriving DecidableEq, Repr

/-- A transaction-shaped record of the combined activity feed. -/
structure ActivityEntry where
  id : String
  type : EntryType
  amount : ℚ
  category : String
  date : String
  note : String
  source : EntrySource
deriving DecidableEq, Repr

/-- Inclusion of transaction kinds into feed-entry kinds. -/
def entryTypeOf : TxType → EntryType
  | TxType.income => EntryType.income
  | TxType.expense => EntryType.expense

/-- The spread `{ ...t, source: 'transaction' }` applied to each transaction. -/
def txEntry (t : Transaction) : ActivityEntry :=
  { id := t.id, type := entryTypeOf t.type, amount := t.amount,
    category := t.category, date := t.date, note := t.note,
    source := EntrySource.transaction }

/-- The projection applied to each debt: type tagged `'debt'`, category fixed
to `"Dhar"`, amount and date carried through, note set to the counterparty
name. -/
def debtEntry (d : Debt) : ActivityEntry :=
  { id := d.id, type := EntryType.debt, amount := d.amount, category := "Dhar",
    date := d.date, note := d.person, source := EntrySource.debt }

/-- Boolean translation of the comparator
`(a, b) => new Date(b.date).getTime() - new Date(a.date).getTime()`:
`a` may precede `b` exactly when the comparator value is nonpositive, i.e.
when the parsed time of `b` is at most the parsed time of `a`. The platform
date parser is abstracted as the parameter `pt`. -/
def dateDesc (pt : String → Nat) (a b : ActivityEntry) : Bool :=
  decide (pt b.date ≤ pt a.date)

/-- The `recentActivity` memo of src/index.tsx lines 150-164 (identical logic
in `recentCombinedActivity`, src/App.tsx lines 69-83): concatenate the mapped
transactions with the projected debts (transactions first), sort the
concatenation with the stable `Array.prototype.sort` under the
date-descending comparator, and truncate with `slice(0, 5)`. -/
def recentActivity (pt : String → Nat) (transactions : List Transaction)
    (debts : List Debt) : List ActivityEntry :=
  ((transactions.map txEntry ++ debts.map debtEntry).mergeSort (dateDesc pt)).take 5

/-- The date-descending comparator is transitive. -/
theorem dateDesc_trans (pt : String → Nat) (a b c : ActivityEntry)
    (hab : dateDesc pt a b) (hbc : dateDesc pt b c) : dateDesc pt a c := by
  simp only [dateDesc, decide_eq_true_eq] at *
  omega

/-- The date-descending comparator is total. -/
theorem dateDesc_total (pt : String → Nat) (a b : ActivityEntry) :
    dateDesc pt a b || dateDesc pt b a := by
  simp only [dateDesc, Bool.or_eq_true, decide_eq_true_eq]
  omega

/-- Stability of the embedded sort with respect to the source tags: when a
list of transaction-tagged entries is concatenated before a list of
debt-tagged entries, no debt-tagged entry ends up before a
transaction-tagged entry of equal parsed date in the sorted output. -/
theorem mergeSort_tag_stable (pt : String → Nat) (A B : List ActivityEntry)
    (hA : ∀ a ∈ A, a.source = EntrySource.transaction)
    (hB : ∀ b ∈ B, b.source = EntrySource.debt) :
    ((A ++ B).mergeSort (dateDesc pt)).Pairwise
      (fun a b => pt a.date = pt b.date →
        (a.source = EntrySource.transaction ∨ b.source = EntrySource.debt)) := by
  have hkey : ∀ p : Nat × ActivityEntry, p ∈ (A ++ B).enum →
      (p.2.source = EntrySource.debt → A.length ≤ p.1)
      ∧ (p.2.source = EntrySource.transaction → p.1 < A.length) := by
    rintro ⟨i, a⟩ hp
    have hget : (A ++ B)[i]? = some a := List.mem_enum_iff_getElem?.mp hp
    constructor
    · intro hs
      by_contra hlt
      push_neg at hlt
      rw [List.getElem?_append_left hlt] at hget
      have ha := hA a (List.getElem?_mem hget)
      rw [ha] at hs
      exact EntrySource.noConfusion hs
    · intro hs
      by_contra hge
      push_neg at hge
      rw [List.getElem?_append_right hge] at hget
      have hb := hB a (List.getElem?_mem hget)
      rw [hb] at hs
      exact EntrySource.noConfusion hs
  have hsorted := @List.sorted_mergeSort _ (List.enumLE (dateDesc pt))
    (List.enumLE_trans (dateDesc_trans pt)) (List.enumLE_total (dateDesc_total pt))
    ((A ++ B).enum)
  rw [← List.mergeSort_enum, List.pairwise_map]
  refine hsorted.imp_of_mem ?_
  intro x y hmx hmy hle
  rw [List.mem_mergeSort] at hmx hmy
  intro heq
  have hx := hkey x hmx
  have hy := hkey y hmy
  have hab : dateDesc pt x.2 y.2 = true := by
    simp only [dateDesc, decide_eq_true_eq]
    omega
  have hba : dateDesc pt y.2 x.2 = true := by
    simp only [dateDesc, decide_eq_true_eq]
    omega
  have hij : x.1 ≤ y.1 := by
    simp only [List.enumLE, hab, hba, if_true, decide_eq_true_eq] at hle
    exact hle
  cases hsx : x.2.source with
  | transaction => exact Or.inl rfl
  | debt =>
    cases hsy : y.2.source with
    | debt => exact Or.inr rfl
    | transaction =>
      exfalso
      have h1 := hx.1 hsx
      have h2 := hy.2 hsy
      omega

/-- C1: the recent-activity feed equals the first 5 entries of the stable
date-descending sort of the projected concatenation (transactions first,
then the debts projected to transaction shape); consequently the feed has at
most 5 entries, is ordered by parsed date descending, never shows a
debt-sourced entry before a transaction-sourced entry of equal parsed date,
is drawn from the projected concatenation, and is empty when both inputs are
empty. -/
theorem recentActivity_spec (pt : String → Nat) (transactions : List Transaction)
    (debts : List Debt) :
    recentActivity pt transactions debts
      = ((transactions.map txEntry ++ debts.map debtEntry).mergeSort
          (dateDesc pt)).take 5
    ∧ (recentActivity pt transactions debts).length ≤ 5
    ∧ (recentActivity pt transactions debts).Pairwise
        (fun a b => pt b.date ≤ pt a.date)
    ∧ (recentActivity pt transactions debts).Pairwise
        (fun a b => pt a.date = pt b.date →
          (a.source = EntrySource.transaction ∨ b.source = EntrySource.debt))
    ∧ recentActivity pt [] [] = []
    ∧ List.Subperm (recentActivity pt transactions debts)
        (transactions.map txEntry ++ debts.map debtEntry) := by
  refine ⟨rfl, ?_, ?_, ?_, by simp [recentActivity], ?_⟩
  · exact List.length_take_le 5 _
  · have hs := @List.sorted_mergeSort _ (dateDesc pt) (dateDesc_trans pt)
      (dateDesc_total pt) (transactions.map txEntry ++ debts.map debtEntry)
    have ht := List.Pairwise.sublist (List.take_sublist 5 _) hs
    exact ht.imp (fun h => by simpa [dateDesc] using h)
  · have hstab := mergeSort_tag_stable pt (transactions.map txEntry)
      (debts.map debtEntry) ?_ ?_
    · exact List.Pairwise.sublist (List.take_sublist 5 _) hstab
    · intro a ha
      rw [List.mem_map] at ha
      obtain ⟨t, _, rfl⟩ := ha
      rfl
    · intro b hb
      rw [List.mem_map] at hb
      obtain ⟨d, _, rfl⟩ := hb
      rfl
  · exact (List.take_sublist 5 _).subperm.trans
      (List.mergeSort_perm _ (dateDesc pt)).subperm

/-! ## Category grouper: `chartData` (src/index.tsx lines 166-171,
src/App.tsx lines 85-94) -/

/-- One slice of the expense pie chart. -/
structure ChartEntry where
  name : String
  value : ℚ
  isPlaceholder : Bool
deriving DecidableEq, Repr

/-- One step of the accumulation
`map[t.category] = (map[t.category] || 0) + t.amount` on a JavaScript object
whose string keys preserve insertion order: an existing key is updated in
place, a new key is appended at the end. -/
def upsertCategory : List (String × ℚ) → String → ℚ → List (String × ℚ)
  | [], k, v => [(k, v)]
  | p :: rest, k, v =>
    if p.1 = k then (p.1, p.2 + v) :: rest else p :: upsertCategory rest k v

/-- The `chartData` memo of src/index.tsx lines 166-171 (identical logic in
src/App.tsx lines 85-94): fold the expense transactions into the
insertion-ordered category map, read the entries back in key order, and fall
back to the `No Data` placeholder when the map is empty. -/
def chartData (transactions : List Transaction) : List ChartEntry :=
  let categoryMap := (transactions.filter (fun t => t.type == TxType.expense)).foldl
    (fun m t => upsertCategory m t.category t.amount) []
  if categoryMap.isEmpty then [{ name := "No Data", value := 1, isPlaceholder := true }]
  else categoryMap.map (fun p => { name := p.1, value := p.2, isPlaceholder := false })

/-- First-seen deduplication of a list of labels, as the specification words
the key order of the category map. -/
def dedupFirst : List String → List String
  | [] => []
  | c :: cs => c :: (dedupFirst cs).filter (fun x => decide (x ≠ c))

/-- Total amount accumulated for one category label. -/
def categorySum (transactions : List Transaction) (c : String) : ℚ :=
  ((transactions.filter (fun t => decide (t.category = c))).map
    (fun t => t.amount)).sum

theorem categorySum_nil (c : String) : categorySum [] c = 0 := rfl

theorem categorySum_cons (e : Transaction) (rest : List Transaction) (c : String) :
    categorySum (e :: rest) c
      = (if e.category = c then e.amount else 0) + categorySum rest c := by
  by_cases h : e.category = c
  · simp [categorySum, List.filter_cons, h]
  · simp [categorySum, List.filter_cons, h]

/-- The labels produced by first-seen deduplication are distinct. -/
theorem dedupFirst_nodup (l : List String) : (dedupFirst l).Nodup := by
  induction l with
  | nil => exact List.nodup_nil
  | cons c cs ih =>
    refine List.Nodup.cons ?_ (ih.filter _)
    intro hc
    have := List.of_mem_filter hc
    simp at this

/-- Keys after one upsert step: unchanged when the key is present, the key
appended otherwise. -/
theorem upsertCategory_keys (m : List (String × ℚ)) (k : String) (v : ℚ) :
    (upsertCategory m k v).map Prod.fst
      = if k ∈ m.map Prod.fst then m.map Prod.fst else m.map Prod.fst ++ [k] := by
  induction m with
  | nil => simp [upsertCategory]
  | cons p rest ih =>
    by_cases hp : p.1 = k
    · simp [upsertCategory, hp]
    · have hne : ¬k = p.1 := fun h => hp h.symm
      simp only [upsertCategory, hp, if_false, List.map_cons, List.mem_cons, hne,
        false_or, ih]
      by_cases hk : k ∈ rest.map Prod.fst
      · simp [hk]
      · simp [hk]

/-- Upsert of a key already present, under distinct keys: the unique matching
entry is bumped in place. -/
theorem upsertCategory_mem (m : List (String × ℚ)) (k : String) (v : ℚ)
    (hnd : (m.map Prod.fst).Nodup) (hk : k ∈ m.map Prod.fst) :
    upsertCategory m k v = m.map (fun p => if p.1 = k then (p.1, p.2 + v) else p) := by
  induction m with
  | nil => simp at hk
  | cons p rest ih =>
    rw [List.map_cons] at hnd
    by_cases hp : p.1 = k
    · subst hp
      simp only [upsertCategory, if_true, List.map_cons, if_pos rfl]
      congr 1
      have : ∀ q ∈ rest, (if q.1 = p.1 then (q.1, q.2 + v) else q) = q := by
        intro q hq
        have : q.1 ≠ p.1 := by
          intro h
          exact (List.nodup_cons.mp hnd).1 (h ▸ List.mem_map_of_mem Prod.fst hq)
        simp [this]
      exact (List.map_congr_left this).symm ▸ (List.map_id rest).symm ▸ rfl
    · have hkr : k ∈ rest.map Prod.fst := by
        rcases List.mem_cons.mp (List.map_cons Prod.fst p rest ▸ hk) with h | h
        · exact absurd h.symm hp
        · exact h
      simp only [upsertCategory, hp, if_false, List.map_cons]
      rw [ih (List.nodup_cons.mp hnd).2 hkr]

/-- Upsert of an absent key: the pair is appended at the end. -/
theorem upsertCategory_not_mem (m : List (String × ℚ)) (k : String) (v : ℚ)
    (hk : k ∉ m.map Prod.fst) :
    upsertCategory m k v = m ++ [(k, v)] := by
  induction m with
  | nil => rfl
  | cons p rest ih =>
    have hp : p.1 ≠ k := by
      intro h
      exact hk (h ▸ List.mem_map_of_mem Prod.fst (List.mem_cons_self p rest))
    have hkr : k ∉ rest.map Prod.fst := by
      intro h
      exact hk (List.map_cons Prod.fst p rest ▸ List.mem_cons_of_mem _ h)
    simp [upsertCategory, hp, ih hkr]

theorem dedupFirst_cons (c : String) (cs : List String) :
    dedupFirst (c :: cs) = c :: (dedupFirst cs).filter (fun x => decide (x ≠ c)) := rfl

/-- Closed form of the fold building the category map: starting from an
accumulator with distinct keys, every existing entry is bumped by the total
amount of its category, and the categories not yet present are appended in
first-seen order carrying their totals. -/
theorem foldl_upsert_eq (es : List Transaction) :
    ∀ m : List (String × ℚ), (m.map Prod.fst).Nodup →
      es.foldl (fun acc t => upsertCategory acc t.category t.amount) m
        = m.map (fun p => (p.1, p.2 + categorySum es p.1))
          ++ ((dedupFirst (es.map (fun t => t.category))).filter
                (fun c => decide (c ∉ m.map Prod.fst))).map
              (fun c => (c, categorySum es c)) := by
  induction es with
  | nil =>
    intro m _
    simp [categorySum_nil, dedupFirst]
  | cons e rest ih =>
    intro m hnd
    rw [List.foldl_cons]
    by_cases hk : e.category ∈ m.map Prod.fst
    · -- the key is already present: the matching entry is bumped in place
      have hkeys : (m.map (fun p => if p.1 = e.category then (p.1, p.2 + e.amount) else p)).map
          Prod.fst = m.map Prod.fst := by
        rw [List.map_map]
        apply List.map_congr_left
        intro p _
        by_cases hp : p.1 = e.category <;> simp [hp]
      have hnd' : ((m.map (fun p => if p.1 = e.category then (p.1, p.2 + e.amount) else p)).map
          Prod.fst).Nodup := by
        rw [hkeys]
        exact hnd
      have hA1 : m.map (fun p => (p.1, p.2 + categorySum (e :: rest) p.1))
          = (m.map (fun p => if p.1 = e.category then (p.1, p.2 + e.amount) else p)).map
              (fun p => (p.1, p.2 + categorySum rest p.1)) := by
        rw [List.map_map]
        apply List.map_congr_left
        intro p _
        by_cases hp : p.1 = e.category
        · simp [Function.comp, hp, categorySum_cons, add_assoc]
        · simp [Function.comp, hp, categorySum_cons, Ne.symm hp]
      have hA2 : ((dedupFirst ((e :: rest).map (fun t => t.category))).filter
              (fun c => decide (c ∉ m.map Prod.fst))).map
            (fun c => (c, categorySum (e :: rest) c))
          = ((dedupFirst (rest.map (fun t => t.category))).filter
              (fun c => decide (c ∉ (m.map (fun p =>
                if p.1 = e.category then (p.1, p.2 + e.amount) else p)).map Prod.fst))).map
            (fun c => (c, categorySum rest c)) := by
        rw [hkeys, List.map_cons, dedupFirst_cons, List.filter_cons]
        have h0 : (decide (e.category ∉ m.map Prod.fst)) = false := by
          simp [hk]
        rw [h0]
        simp only [Bool.false_eq_true, if_false, List.filter_filter]
        have hcong : ∀ x ∈ dedupFirst (rest.map (fun t => t.category)),
            (decide (x ∉ m.map Prod.fst) && decide (x ≠ e.category))
              = decide (x ∉ m.map Prod.fst) := by
          intro x _
          by_cases hx : x ∈ m.map Prod.fst
          · simp [hx]
          · have : x ≠ e.category := fun h => hx (h ▸ hk)
            simp [hx, this]
        rw [List.filter_congr hcong]
        apply List.map_congr_left
        intro c hc
        have hcm : c ∉ m.map Prod.fst := by
          have := (List.mem_filter.mp hc).2
          exact of_decide_eq_true this
        have hce : ¬e.category = c := fun h => hcm (h ▸ hk)
        rw [categorySum_cons, if_neg hce, zero_add]
      rw [upsertCategory_mem m e.category e.amount hnd hk, ih _ hnd', hA1, hA2]
    · -- the key is new: the pair is appended at the end of the map
      have hnd' : (((m ++ [(e.category, e.amount)]).map Prod.fst)).Nodup := by
        rw [List.map_append, List.nodup_append]
        refine ⟨hnd, by simp, ?_⟩
        intro x hx hx2
        simp only [List.map_cons, List.map_nil, List.mem_singleton] at hx2
        exact hk (hx2 ▸ hx)
      have hB1 : m.map (fun p => (p.1, p.2 + categorySum (e :: rest) p.1))
          = m.map (fun p => (p.1, p.2 + categorySum rest p.1)) := by
        apply List.map_congr_left
        intro p hp
        have hpk : ¬e.category = p.1 := by
          intro h
          exact hk (h ▸ List.mem_map_of_mem Prod.fst hp)
        rw [categorySum_cons, if_neg hpk, zero_add]
      have hB2 : ((dedupFirst ((e :: rest).map (fun t => t.category))).filter
              (fun c => decide (c ∉ m.map Prod.fst))).map
            (fun c => (c, categorySum (e :: rest) c))
          = (e.category, e.amount + categorySum rest e.category)
            :: ((dedupFirst (rest.map (fun t => t.category))).filter
                (fun c => decide (c ∉ (m ++ [(e.category, e.amount)]).map Prod.fst))).map
              (fun c => (c, categorySum rest c)) := by
        rw [List.map_cons, dedupFirst_cons, List.filter_cons]
        have h0 : (decide (e.category ∉ m.map Prod.fst)) = true := by
          simp [hk]
        rw [h0]
        simp only [if_true, List.map_cons, List.filter_filter]
        congr 1
        · rw [categorySum_cons, if_pos rfl]
        · rw [List.map_append]
          have hcong : ∀ x ∈ dedupFirst (rest.map (fun t => t.category)),
              (decide (x ∉ m.map Prod.fst) && decide (x ≠ e.category))
                = decide (x ∉ m.map Prod.fst ++ [(e.category, e.amount)].map Prod.fst) := by
            intro x _
            simp only [List.map_cons, List.map_nil, List.mem_append, List.mem_singleton]
            by_cases hx : x ∈ m.map Prod.fst
            · simp [hx]
            · by_cases hxe : x = e.category
              · simp [hx, hxe]
              · simp [hx, hxe]
          rw [List.filter_congr hcong]
          apply List.map_congr_left
          intro c hc
          have hmem := (List.mem_filter.mp hc).2
          have hcm : c ∉ m.map Prod.fst ++ [(e.category, e.amount)].map Prod.fst :=
            of_decide_eq_true hmem
          have hce : ¬e.category = c := by
            intro h
            exact hcm (by simp [h])
          rw [categorySum_cons, if_neg hce, zero_add]
      rw [upsertCategory_not_mem m e.category e.amount hk, ih _ hnd', hB1, hB2,
        List.map_append, List.append_assoc]
      rfl

/-- The three-transaction expense list of the specification example:
Food 100, Food 50, Transport 20. -/
def exampleExpenseList : List Transaction :=
  [{ id := "e1", type := TxType.expense, amount := 100, category := "Food",
     date := "2024-01-01", note := "" },
   { id := "e2", type := TxType.expense, amount := 50, category := "Food",
     date := "2024-01-02", note := "" },
   { id := "e3", type := TxType.expense, amount := 20, category := "Transport",
     date := "2024-01-03", note := "" }]

/-- C4: the category grouping filters to kind expense and folds amounts into
per-category sums, emitting one `(label, value, isPlaceholder = false)`
triple per distinct category, in first-seen category order (the label list is
duplicate-free); when there is no expense transaction it emits exactly the
single placeholder `(No Data, 1, true)`; on the specification example it
yields Food 150 then Transport 20. -/
theorem chartData_spec (transactions : List Transaction) :
    chartData transactions
      = (if (dedupFirst ((transactions.filter (fun t => t.type == TxType.expense)).map
              (fun t => t.category))).isEmpty
         then [{ name := "No Data", value := 1, isPlaceholder := true }]
         else (dedupFirst ((transactions.filter (fun t => t.type == TxType.expense)).map
                (fun t => t.category))).map
              (fun c => ChartEntry.mk c
                (categorySum (transactions.filter (fun t => t.type == TxType.expense)) c)
                false))
    ∧ (dedupFirst ((transactions.filter (fun t => t.type == TxType.expense)).map
        (fun t => t.category))).Nodup
    ∧ chartData [] = [{ name := "No Data", value := 1, isPlaceholder := true }]
    ∧ chartData exampleExpenseList
      = [{ name := "Food", value := 150, isPlaceholder := false },
         { name := "Transport", value := 20, isPlaceholder := false }] := by
  refine ⟨?_, dedupFirst_nodup _, rfl, ?_⟩
  · have h2 : (transactions.filter (fun t => t.type == TxType.expense)).foldl
        (fun m t => upsertCategory m t.category t.amount) []
        = (dedupFirst ((transactions.filter (fun t => t.type == TxType.expense)).map
            (fun t => t.category))).map
          (fun c => (c, categorySum
            (transactions.filter (fun t => t.type == TxType.expense)) c)) := by
      rw [foldl_upsert_eq _ [] (by simp)]
      simp
    simp only [chartData, h2]
    cases hD : dedupFirst ((transactions.filter (fun t => t.type == TxType.expense)).map
        (fun t => t.category)) with
    | nil => rfl
    | cons c cs => simp [List.map_map]
  · norm_num [chartData, upsertCategory, exampleExpenseList]
    simp

end Hisebi
